/-
Verification of the 8ball trading-bot repository core: the open-position
store (trade_manager), the technical-indicator library (EMA, RSI, ATR),
position sizing, confidence-score parsing, exit-condition evaluation and
the trailing high-water-mark logic.

Numeric values (TypeScript `number`) are modelled as rationals: the claims
under scrutiny are about exact algebraic relationships and branch guards,
not float rounding.  Fallible file writes are modelled by an explicit
success flag; a JavaScript exception is modelled as `Except.error`.
-/
import Mathlib

namespace EightBall

/-! ## Position store (trade_manager, src/unnamed/part_001)

The store keeps a module-level array `openTrades` and mirrors it to a JSON
file on every successful write.  `StoreState` carries both the in-memory
list and the on-disk contents. -/

/-- The persisted `OpenTrade` record, with every field of the source
interface (`toAmount` is a string in the source and stays one here). -/
structure OpenTrade where
  id : String
  fromToken : String
  fromTokenSymbol : String
  fromChain : String
  fromSpecificChain : String
  fromAmount : ℚ
  toToken : String
  toTokenSymbol : String
  toChain : String
  toSpecificChain : String
  toAmount : String
  price : ℚ
  tradeAmountUsd : ℚ
  timestamp : String
  competitionId : String
  agentId : String
  reason : String
  error : Option String := none
  deriving DecidableEq, Repr

/-- In-memory list plus the on-disk mirror of the open-trades file. -/
structure StoreState where
  openTrades : List OpenTrade
  file : List OpenTrade
  deriving DecidableEq, Repr

namespace TradeManager

/-- Model of `fs.writeFile`: overwrites the file with `content` when the write
succeeds (`w = true`), otherwise leaves the file as it was and throws. -/
def fsWriteFile (w : Bool) (content file : List OpenTrade) :
    List OpenTrade × Except String Unit :=
  if w then (content, Except.ok ()) else (file, Except.error ("write failed"))

/-- Function `saveOpenTrades` wraps the write in try/catch; the catch only logs,
so the function resolves successfully whether or not the write succeeded. -/
def saveOpenTrades (w : Bool) (trades file : List OpenTrade) :
    List OpenTrade × Except String Unit :=
  match fsWriteFile w trades file with
  | (f, Except.ok ()) => (f, Except.ok ())
  | (f, Except.error _) => (f, Except.ok ())

/-- Function `addOpenTrade` pushes the trade onto the in-memory array, then awaits
`saveOpenTrades`. -/
def addOpenTrade (w : Bool) (t : OpenTrade) (s : StoreState) :
    StoreState × Except String Unit :=
  let trades := s.openTrades ++ [t]
  let fr := saveOpenTrades w trades s.file
  (⟨trades, fr.1⟩, fr.2)

/-- Function `removeOpenTrade` filters the array by `trade.id !== tradeId`; saves
only when the length shrank, otherwise just warns. -/
def removeOpenTrade (w : Bool) (tradeId : String) (s : StoreState) :
    StoreState × Except String Unit :=
  let l := s.openTrades.filter (fun t => t.id ≠ tradeId)
  if l.length < s.openTrades.length then
    let fr := saveOpenTrades w l s.file
    (⟨l, fr.1⟩, fr.2)
  else
    (⟨l, s.file⟩, Except.ok ())

/-- Accessor `getOpenTrades` returns the in-memory array. -/
def getOpenTrades (s : StoreState) : List OpenTrade :=
  s.openTrades

end TradeManager

/-! ## Indicator library (momentum bot, src/unnamed/part_002) -/

namespace Bot

/-- Loop body of `calculateEMA`: starting from the accumulator `prev`,
push `price * k + prev * (1 - k)` for each remaining price. -/
def emaAux (k : ℚ) : ℚ → List ℚ → List ℚ
  | _, [] => []
  | prev, p :: ps =>
    let e := p * k + prev * (1 - k)
    e :: emaAux k e ps

/-- Function `calculateEMA` returns `[]` when `prices.length < period`; otherwise
seeds the output with the first price and applies the smoothing factor
`k = 2 / (period + 1)` along the whole series. -/
def calculateEMA (prices : List ℚ) (period : ℕ) : List ℚ :=
  if prices.length < period then []
  else
    match prices with
    | [] => []
    | p :: ps => p :: emaAux (2 / ((period : ℚ) + 1)) p ps

/-- The consecutive price changes `prices[i] - prices[i-1]`. -/
def deltas (prices : List ℚ) : List ℚ :=
  List.zipWith (fun prev next => next - prev) prices prices.tail

/-- Wilder-smoothing loop of `calculateRSI` over the deltas after the seed
window (`rs` set to `100` when the smoothed average loss is zero). -/
def rsiRest (period : ℕ) : ℚ → ℚ → List ℚ → List ℚ
  | _, _, [] => []
  | avgGain, avgLoss, d :: ds =>
    let gain := if d > 0 then d else 0
    let loss := if d < 0 then -d else 0
    let g := (avgGain * ((period : ℚ) - 1) + gain) / (period : ℚ)
    let l := (avgLoss * ((period : ℚ) - 1) + loss) / (period : ℚ)
    let rs := if l = 0 then (100 : ℚ) else g / l
    (100 - 100 / (1 + rs)) :: rsiRest period g l ds

/-- Function `calculateRSI` returns `[]` when `prices.length ≤ period`; otherwise seeds
average gain/loss as simple means of the first `period` deltas, emits the
first RSI value, then Wilder-smooths the remaining deltas.  When the
average loss is zero the source sets `rs = 100` (so the emitted value is
`100 - 100/101`, not `100`). -/
def calculateRSI (prices : List ℚ) (period : ℕ) : List ℚ :=
  if prices.length ≤ period then []
  else
    let ds := deltas prices
    let seed := ds.take period
    let avgGain := (seed.foldl (fun a d => if d > 0 then a + d else a) 0) / (period : ℚ)
    let avgLoss := (seed.foldl (fun a d => if d > 0 then a else a - d) 0) / (period : ℚ)
    let rs := if avgLoss = 0 then (100 : ℚ) else avgGain / avgLoss
    (100 - 100 / (1 + rs)) :: rsiRest period avgGain avgLoss (ds.drop period)

/-- Function `calculatePositionSize`: base position is a fraction of the available
capital, scaled down by volatility, floored at 10 USDC. -/
def calculatePositionSize (availableCapital volatility maxPositionSize : ℚ) : ℚ :=
  max 10 (availableCapital * maxPositionSize * (1 - volatility))

/-- The sizing decision at the `executeTrades` call site: the opportunity
is skipped exactly when the available capital is `0`; otherwise the trade
is submitted with `calculatePositionSize availableCapital 0.5 m` where `m`
is the current `strategyParameters.maxPositionSize`. -/
def executeTradeSizing (m availableCapital : ℚ) : Option ℚ :=
  if availableCapital = 0 then none
  else some (calculatePositionSize availableCapital (1/2) m)

end Bot

/-! ## ATR, scalar variant (src/app/autotrader/trend_pullback_bot.ts) -/

namespace TrendPullbackBot

/-- One OHLC row `[timestamp, open, high, low, close]`; only indices 2, 3
and 4 (high, low, close) are read by `calculateATR`. -/
structure OhlcRow where
  high : ℚ
  low : ℚ
  close : ℚ
  deriving DecidableEq, Repr

/-- True range of each bar after the first:
`max (high - low) (max |high - prevClose| |low - prevClose|)`. -/
def trueRanges (ohlcData : List OhlcRow) : List ℚ :=
  List.zipWith
    (fun prev cur =>
      max (cur.high - cur.low) (max |cur.high - prev.close| |cur.low - prev.close|))
    ohlcData ohlcData.tail

/-- Scalar `calculateATR`: guard is `ohlcData.length < period` (not
`< period + 1`); seeds with the mean of the first `period` true ranges
(dividing by `period` even when fewer are available) and Wilder-smooths
the rest. -/
def calculateATR (ohlcData : List OhlcRow) (period : ℕ) : ℚ :=
  if ohlcData.length < period then 0
  else
    let trs := trueRanges ohlcData
    let atr0 := ((trs.take period).foldl (· + ·) 0) / (period : ℚ)
    (trs.drop period).foldl
      (fun atr tr => (atr * ((period : ℚ) - 1) + tr) / (period : ℚ)) atr0

end TrendPullbackBot

/-! ## ATR, array variant (src/app/autotrader/combined_strategy_bot.ts) -/

namespace CombinedStrategyBot

/-- One historical data point; `price` doubles as the close. -/
structure Bar where
  high : ℚ
  low : ℚ
  price : ℚ
  deriving DecidableEq, Repr

/-- True ranges with `data[i-1].price` as the previous close. -/
def trueRanges (data : List Bar) : List ℚ :=
  List.zipWith
    (fun prev cur =>
      max (cur.high - cur.low) (max |cur.high - prev.price| |cur.low - prev.price|))
    data data.tail

/-- Wilder-smoothing loop pushing each new ATR value. -/
def atrRest (period : ℕ) : ℚ → List ℚ → List ℚ
  | _, [] => []
  | atr, tr :: trs =>
    let a := (atr * ((period : ℚ) - 1) + tr) / (period : ℚ)
    a :: atrRest period a trs

/-- Array `calculateATR`: guard is `data.length ≤ period`, i.e. it returns
`[]` exactly when fewer than `period + 1` bars are available. -/
def calculateATR (data : List Bar) (period : ℕ) : List ℚ :=
  if data.length ≤ period then []
  else
    let trs := trueRanges data
    let atr0 := ((trs.take period).foldl (· + ·) 0) / (period : ℚ)
    atr0 :: atrRest period atr0 (trs.drop period)

end CombinedStrategyBot

/-! ## Confidence-score parsing (trend_pullback_bot.ts, getTradeConfidence)

The source extracts the score with the regex `<score>([0-9.]+)</score>`
(first match), falls back to `confidence score of \*\*([0-9.]+)\*\*`, and
keeps `0` when both fail; the reason is the response with the first
score-tag match replaced by the empty string, then trimmed.  Because both
closing delimiters start with a character outside the class `[0-9.]`, the
backtracking regex accepts at a position exactly when the greedy maximal
`[0-9.]` run after the opening literal is followed by the closing literal,
so the matchers below implement leftmost-match-with-greedy-group exactly. -/

namespace TrendPullbackBot

/-- The regex character class `[0-9.]`. -/
def isScoreChar (c : Char) : Bool :=
  decide (('0' ≤ c ∧ c ≤ '9') ∨ c = '.')

/-- Match a literal at the head of `s`, returning the remainder. -/
def matchLit : List Char → List Char → Option (List Char)
  | [], s => some s
  | _ :: _, [] => none
  | c :: cs, d :: ds => if c = d then matchLit cs ds else none

/-- Try the pattern `opn ++ [0-9.]+ ++ cls` at the head of `s`; on success
return the captured group and the remainder after the closing literal. -/
def matchDelimHere (opn cls s : List Char) : Option (List Char × List Char) :=
  match matchLit opn s with
  | none => none
  | some t =>
    let g := t.takeWhile isScoreChar
    let r := t.dropWhile isScoreChar
    if g = [] then none
    else
      match matchLit cls r with
      | none => none
      | some rest => some (g, rest)

/-- Leftmost match of `opn ++ [0-9.]+ ++ cls` in `s`: returns the text
before the match, the captured group, and the text after the match. -/
def matchDelimSplit (opn cls : List Char) :
    List Char → Option (List Char × List Char × List Char)
  | [] => none
  | c :: cs =>
    match matchDelimHere opn cls (c :: cs) with
    | some (g, rest) => some ([], g, rest)
    | none =>
      match matchDelimSplit opn cls cs with
      | some (a, g, rest) => some (c :: a, g, rest)
      | none => none

/-- The literal `<score>`. -/
def scoreOpen : List Char := ['<', 's', 'c', 'o', 'r', 'e', '>']

/-- The literal `</score>`. -/
def scoreClose : List Char := ['<', '/', 's', 'c', 'o', 'r', 'e', '>']

/-- The literal `confidence score of **` of the fallback sentence. -/
def fbOpen : List Char :=
  ['c', 'o', 'n', 'f', 'i', 'd', 'e', 'n', 'c', 'e', ' ',
    's', 'c', 'o', 'r', 'e', ' ', 'o', 'f', ' ', '*', '*']

/-- The closing `**` of the fallback sentence. -/
def fbClose : List Char := ['*', '*']

/-- Decimal digits to a natural number. -/
def digitsToNat (l : List Char) : ℕ :=
  l.foldl (fun a c => a * 10 + (c.toNat - Char.toNat '0')) 0

/-- Model of `parseFloat` on a string drawn from `[0-9.]+`: integer part, then a
fractional part after the first dot, ignoring anything from a second dot
on.  (A group with no digits at all would be NaN in JS; such inputs do not
arise in the claims and are mapped to `0`.) -/
def parseFloatQ (l : List Char) : ℚ :=
  let isDigit : Char → Bool := fun c => decide ('0' ≤ c ∧ c ≤ '9')
  let intDigits := l.takeWhile isDigit
  let rest := l.dropWhile isDigit
  match rest with
  | '.' :: r =>
    let fracDigits := r.takeWhile isDigit
    (digitsToNat intDigits : ℚ) +
      (digitsToNat fracDigits : ℚ) / ((10 : ℚ) ^ fracDigits.length)
  | _ => (digitsToNat intDigits : ℚ)

/-- The whitespace stripped by `String.prototype.trim` (the characters
that occur in the modelled inputs). -/
def isJsWhitespace (c : Char) : Bool :=
  decide (c = ' ' ∨ c = '\t' ∨ c = '\n' ∨ c = '\r')

/-- Model of `trim`: drop whitespace from both ends. -/
def trimChars (l : List Char) : List Char :=
  ((l.dropWhile isJsWhitespace).reverse.dropWhile isJsWhitespace).reverse

/-- Model of the replace call stripping the first score-tag match: remove the
first score-tag match, if any. -/
def replaceFirstTag (s : List Char) : List Char :=
  match matchDelimSplit scoreOpen scoreClose s with
  | some (a, _, rest) => a ++ rest
  | none => s

/-- The response-parsing portion of `getTradeConfidence`: confidence from
the score tag, else from the fallback sentence, else `0`; reason is the
response with the first score tag removed, trimmed. -/
def parseConfidence (resp : List Char) : ℚ × List Char :=
  let confidence :=
    match matchDelimSplit scoreOpen scoreClose resp with
    | some (_, g, _) => parseFloatQ g
    | none =>
      match matchDelimSplit fbOpen fbClose resp with
      | some (_, g, _) => parseFloatQ g
      | none => 0
  (confidence, trimChars (replaceFirstTag resp))

/-- Predicate: `s` contains an occurrence of `opn`, a nonempty run of `[0-9.]`
characters, then `cls` (the property "the text contains the pattern"). -/
def ContainsDelim (opn cls s : List Char) : Prop :=
  ∃ a g b, g ≠ [] ∧ (∀ c ∈ g, isScoreChar c = true) ∧
    s = a ++ opn ++ g ++ cls ++ b

end TrendPullbackBot

/-! ## Exit-condition monitoring (momentum bot, src/unnamed/part_002)

`monitorOpenPositions` iterates over the snapshot returned by
`getOpenTrades()` and reads `token.token`, `token.chain`,
`token.specificChain`, `token.symbol` and `token.amount` — fields the
stored `OpenTrade` records do not have (the records created by
`executeTrades` carry the address in `toToken` etc.), so those accesses
evaluate to `undefined` at run time and the guard
`TRADABLE_TOKEN_ADDRESSES.has(token.token)` is false for every trade. -/

namespace Bot

/-- The token addresses registered by `initializeTradableTokens`. -/
def TRADABLE_TOKEN_ADDRESSES : List String :=
  ["0x7Fc66500c84A76Ad7e9c93437bFc5Ac33E2DDaE9",
    "0x1121AcC14c63f3C872BFcA497d10926A6098AAc5",
    "0x2260fac5e5542a773aa44fbcfedf7c193bc2c599",
    "0xC02aaA39b223FE8D0A0e5C4F27eAD9083C756Cc2",
    "0x514910771af9ca656af840dff83e8264ecf986ca",
    "0x07E0EDf8ce600FB51d44F51E3348D77D67F298ae",
    "0x1151CB3d861920e07a38e03eEAd12C32178567F6",
    "0x6982508145454ce325ddbe47a25d4ec3d2311933",
    "So11111111111111111111111111111111111111112"]

/-- JavaScript property access `token.token` on a stored `OpenTrade`: the
record has no `token` field, so the access yields `undefined` (`none`). -/
def tokenField (_t : OpenTrade) : Option String := none

/-- Membership test `TRADABLE_TOKEN_ADDRESSES.has(x)` where `x` may be `undefined`; a
`Set` of strings never contains `undefined`. -/
def hasTokenAddress (a : Option String) : Bool :=
  match a with
  | none => false
  | some s => TRADABLE_TOKEN_ADDRESSES.contains s

/-- The monitor's P&L: `(currentPrice - entryPrice) / entryPrice`. -/
def pnl (entryPrice currentPrice : ℚ) : ℚ :=
  (currentPrice - entryPrice) / entryPrice

/-- The exit decision of the monitor: stop-loss when `pnl ≤ -stopLoss`,
take-profit when `pnl ≥ takeProfit`, both boundaries inclusive. -/
def exitTriggered (stopLoss takeProfit entryPrice currentPrice : ℚ) : Bool :=
  decide (pnl entryPrice currentPrice ≤ -stopLoss) ||
    decide (takeProfit ≤ pnl entryPrice currentPrice)

/-- One iteration of the monitor loop: skip when the (undefined) token
field is not a tradable address, skip when the price fetch fails,
otherwise close (remove) the position when the exit condition fires. -/
def monitorStep (w : Bool) (stopLoss takeProfit : ℚ)
    (priceOf : OpenTrade → Option ℚ) (s : StoreState) (t : OpenTrade) :
    StoreState :=
  if hasTokenAddress (tokenField t) = false then s
  else
    match priceOf t with
    | none => s
    | some c =>
      if exitTriggered stopLoss takeProfit t.price c then
        (TradeManager.removeOpenTrade w t.id s).1
      else s

/-- Function `monitorOpenPositions`: the loop over the snapshot of open trades. -/
def monitorOpenPositions (w : Bool) (stopLoss takeProfit : ℚ)
    (priceOf : OpenTrade → Option ℚ) (s : StoreState) : StoreState :=
  (TradeManager.getOpenTrades s).foldl
    (monitorStep w stopLoss takeProfit priceOf) s

end Bot

/-! ## Trailing high-water mark (memecoin_trade_manager.ts monitor)

Each pass over an open position first defaults `highWaterMark` to the
entry price when unset, then, if the price fetch succeeded and the
current price exceeds the mark, raises the mark to the current price and
persists it via `updateOpenTrade`.  (The JS falsiness check also treats a
mark of `0` as unset; with the entry-price default the mark can only be
`0` when the entry price is `0`, in which case re-defaulting is the
identity, so `Option` captures the reachable behaviour.) -/

namespace MemecoinBot

/-- One monitoring observation of a position's high-water mark; `price =
none` models a failed price fetch (the mark is still defaulted). -/
def monitorHwmPass (entryPrice : ℚ) (hwm : Option ℚ) (price : Option ℚ) :
    Option ℚ :=
  let h0 := match hwm with
    | none => entryPrice
    | some h => h
  match price with
  | none => some h0
  | some p => some (if p > h0 then p else h0)

/-- The mark after a sequence of monitoring passes. -/
def monitorHwmRuns (entryPrice : ℚ) (hwm : Option ℚ)
    (prices : List (Option ℚ)) : Option ℚ :=
  prices.foldl (monitorHwmPass entryPrice) hwm

/-- The maximum of the entry price and all observed prices. -/
def hwmValue (entryPrice : ℚ) (obs : List ℚ) : ℚ :=
  obs.foldl max entryPrice

end MemecoinBot

/-- A concrete trade record used to instantiate store theorems. -/
def sampleTrade : OpenTrade where
  id := "t1"
  fromToken := "0xA0b86991c6218b36c1d19D4a2e9Eb0cE3606eB48"
  fromTokenSymbol := "USDC"
  fromChain := "evm"
  fromSpecificChain := "eth"
  fromAmount := 10
  toToken := "0x7Fc66500c84A76Ad7e9c93437bFc5Ac33E2DDaE9"
  toTokenSymbol := "AAVE"
  toChain := "evm"
  toSpecificChain := "eth"
  toAmount := "2"
  price := 5
  tradeAmountUsd := 10
  timestamp := "2025-01-01T00:00:00Z"
  competitionId := "N/A"
  agentId := "N/A"
  reason := "test"

/-- A second concrete trade with a different id. -/
def otherTrade : OpenTrade :=
  { sampleTrade with id := "t2", toTokenSymbol := "WETH" }

end EightBall

namespace EightBall

/-! ## Store lemmas -/

theorem saveOpenTrades_ok (w : Bool) (trades file : List OpenTrade) :
    (TradeManager.saveOpenTrades w trades file).2 = Except.ok () := by
  cases w <;> rfl

theorem saveOpenTrades_file (w : Bool) (trades file : List OpenTrade) :
    (TradeManager.saveOpenTrades w trades file).1 =
      if w then trades else file := by
  cases w <;> rfl

theorem removeOpenTrade_fst_openTrades (w : Bool) (tradeId : String)
    (s : StoreState) :
    ((TradeManager.removeOpenTrade w tradeId s).1).openTrades =
      s.openTrades.filter (fun t => t.id ≠ tradeId) := by
  unfold TradeManager.removeOpenTrade
  dsimp only
  split <;> rfl

/-! ## C2 -/

/-- C2 (amended): `addOpenTrade` appends to the in-memory list and attempts
to persist, but a write failure is caught and logged inside
`saveOpenTrades`, so the whole operation still resolves successfully
(no error reaches the caller); the in-memory list is mutated in every
case, and the file is updated only when the write succeeded. -/
theorem addOpenTrade_swallows_write_failure (w : Bool) (t : OpenTrade)
    (s : StoreState) :
    (TradeManager.addOpenTrade w t s).2 = Except.ok () ∧
    ((TradeManager.addOpenTrade w t s).1).openTrades = s.openTrades ++ [t] ∧
    ((TradeManager.addOpenTrade w t s).1).file =
      (if w then s.openTrades ++ [t] else s.file) := by
  refine ⟨?_, ?_, ?_⟩
  · simpa [TradeManager.addOpenTrade] using
      saveOpenTrades_ok w (s.openTrades ++ [t]) s.file
  · rfl
  · simpa [TradeManager.addOpenTrade] using
      saveOpenTrades_file w (s.openTrades ++ [t]) s.file

/-- C2 counterexample: with a failing write, `addOpenTrade` still resolves
as a success (the error does not propagate), with the in-memory list
already mutated and the file left unchanged. -/
theorem addOpenTrade_failure_does_not_propagate :
    (TradeManager.addOpenTrade false sampleTrade ⟨[], []⟩).2 =
      Except.ok () ∧
    ((TradeManager.addOpenTrade false sampleTrade ⟨[], []⟩).1).openTrades =
      [sampleTrade] ∧
    ((TradeManager.addOpenTrade false sampleTrade ⟨[], []⟩).1).file = [] := by
  exact ⟨rfl, rfl, rfl⟩

/-! ## C6 -/

/-- C6: starting from a store with no trade carrying `p`'s id, adding `p`
makes `getOpenTrades` contain exactly one record equal to `p`, and a
subsequent `removeOpenTrade p.id` leaves no record with `p`'s id,
regardless of whether either file write succeeds. -/
theorem add_then_remove_round_trip (w₁ w₂ : Bool) (s : StoreState)
    (p : OpenTrade) (h : ∀ t ∈ s.openTrades, t.id ≠ p.id) :
    (TradeManager.getOpenTrades
        (TradeManager.addOpenTrade w₁ p s).1).countP (fun t => t = p) = 1 ∧
    ∀ t ∈ TradeManager.getOpenTrades
        (TradeManager.removeOpenTrade w₂ p.id
          (TradeManager.addOpenTrade w₁ p s).1).1, t.id ≠ p.id := by
  have hadd : (TradeManager.addOpenTrade w₁ p s).1.openTrades =
      s.openTrades ++ [p] := rfl
  constructor
  · have hzero : s.openTrades.countP (fun t => t = p) = 0 := by
      rw [List.countP_eq_zero]
      intro t ht
      simpa using fun he => h t ht (by rw [he])
    simp [TradeManager.getOpenTrades, hadd, List.countP_append, hzero]
  · intro t ht
    have ht' : t ∈ ((TradeManager.addOpenTrade w₁ p s).1).openTrades.filter
        (fun x => x.id ≠ p.id) := by
      simpa [TradeManager.getOpenTrades,
        removeOpenTrade_fst_openTrades] using ht
    simpa using (List.mem_filter.mp ht').2

/-- Concrete instantiation of the round-trip theorem on an empty store. -/
theorem add_then_remove_round_trip_witness :
    (TradeManager.getOpenTrades
        (TradeManager.addOpenTrade true sampleTrade ⟨[], []⟩).1).countP
        (fun t => t = sampleTrade) = 1 ∧
    ∀ t ∈ TradeManager.getOpenTrades
        (TradeManager.removeOpenTrade true sampleTrade.id
          (TradeManager.addOpenTrade true sampleTrade ⟨[], []⟩).1).1,
      t.id ≠ sampleTrade.id :=
  add_then_remove_round_trip true true ⟨[], []⟩ sampleTrade
    (by intro t ht; simp at ht)

/-! ## C10 -/

/-- C10: `removeOpenTrade id` removes every stored trade whose id equals
`id`, keeps the remaining trades in order with every field unchanged
(the result is a sublist of the original), keeps exactly the trades whose
id differs, and when no trade has that id it leaves the whole state —
in-memory list and file — untouched and reports success. -/
theorem removeOpenTrade_spec (w : Bool) (tradeId : String) (s : StoreState) :
    ((TradeManager.removeOpenTrade w tradeId s).1).openTrades =
      s.openTrades.filter (fun t => t.id ≠ tradeId) ∧
    ((TradeManager.removeOpenTrade w tradeId s).1).openTrades.Sublist
      s.openTrades ∧
    (∀ t ∈ ((TradeManager.removeOpenTrade w tradeId s).1).openTrades,
      t.id ≠ tradeId) ∧
    (∀ t ∈ s.openTrades, t.id ≠ tradeId →
      t ∈ ((TradeManager.removeOpenTrade w tradeId s).1).openTrades) ∧
    ((∀ t ∈ s.openTrades, t.id ≠ tradeId) →
      TradeManager.removeOpenTrade w tradeId s = (s, Except.ok ())) := by
  have hmem := removeOpenTrade_fst_openTrades w tradeId s
  refine ⟨hmem, ?_, ?_, ?_, ?_⟩
  · rw [hmem]; exact List.filter_sublist _
  · intro t ht
    have := List.of_mem_filter (by rw [hmem] at ht; exact ht)
    simpa using this
  · intro t ht hid
    rw [hmem]
    exact List.mem_filter.mpr ⟨ht, by simpa using hid⟩
  · intro hnone
    have hfilter : s.openTrades.filter (fun t => t.id ≠ tradeId) =
        s.openTrades := by
      rw [List.filter_eq_self]
      intro t ht
      simpa using hnone t ht
    unfold TradeManager.removeOpenTrade
    rw [hfilter]
    simp

/-- Concrete instantiation: removing an absent id from a one-trade store
changes nothing and does not rewrite the file. -/
theorem removeOpenTrade_spec_witness :
    TradeManager.removeOpenTrade true ("missing")
      ⟨[sampleTrade], [sampleTrade]⟩ =
      (⟨[sampleTrade], [sampleTrade]⟩, Except.ok ()) :=
  (removeOpenTrade_spec true ("missing") ⟨[sampleTrade], [sampleTrade]⟩).2.2.2.2
    (by decide)

/-! ## EMA lemmas -/

theorem emaAux_length (k : ℚ) :
    ∀ (ps : List ℚ) (prev : ℚ), (Bot.emaAux k prev ps).length = ps.length
  | [], _ => rfl
  | p :: ps, prev => by
    simp [Bot.emaAux, emaAux_length k ps]

theorem emaAux_getElem_zero (k prev : ℚ) (ps : List ℚ) (h : 0 < ps.length)
    (h' : 0 < (Bot.emaAux k prev ps).length) :
    (Bot.emaAux k prev ps)[0] = ps[0] * k + prev * (1 - k) := by
  cases ps with
  | nil => simp at h
  | cons p ps => simp [Bot.emaAux]

theorem emaAux_getElem_succ (k : ℚ) :
    ∀ (ps : List ℚ) (prev : ℚ) (i : ℕ) (h : i + 1 < ps.length)
      (ha : i + 1 < (Bot.emaAux k prev ps).length)
      (ha2 : i < (Bot.emaAux k prev ps).length),
      (Bot.emaAux k prev ps)[i + 1] =
        ps[i + 1] * k + (Bot.emaAux k prev ps)[i] * (1 - k) := by
  intro ps
  induction ps with
  | nil => intro prev i h ha ha2; simp at h
  | cons p ps ih =>
    intro prev i h ha ha2
    have hlen : (Bot.emaAux k (p * k + prev * (1 - k)) ps).length = ps.length :=
      emaAux_length k ps _
    match i with
    | 0 =>
      have hps : 0 < ps.length := by simpa using h
      have hps' : 0 < (Bot.emaAux k (p * k + prev * (1 - k)) ps).length := by
        rw [hlen]; exact hps
      simp only [Bot.emaAux, List.getElem_cons_succ, List.getElem_cons_zero]
      exact emaAux_getElem_zero k _ ps hps hps'
    | j + 1 =>
      have hj : j + 1 < ps.length := by simpa using h
      have hj1 : j + 1 < (Bot.emaAux k (p * k + prev * (1 - k)) ps).length := by
        rw [hlen]; exact hj
      have hj2 : j < (Bot.emaAux k (p * k + prev * (1 - k)) ps).length := by
        rw [hlen]; omega
      simp only [Bot.emaAux, List.getElem_cons_succ]
      exact ih _ j hj hj1 hj2

theorem calculateEMA_cons (p : ℚ) (ps : List ℚ) (period : ℕ)
    (h : ¬ (p :: ps).length < period) :
    Bot.calculateEMA (p :: ps) period =
      p :: Bot.emaAux (2 / ((period : ℚ) + 1)) p ps := by
  rw [show Bot.calculateEMA (p :: ps) period =
      if (p :: ps).length < period then []
      else p :: Bot.emaAux (2 / ((period : ℚ) + 1)) p ps from rfl,
    if_neg h]

/-! ## C5 -/

/-- C5: `calculateEMA` returns `[]` when the series is shorter than the
period; for a series of length ≥ period (period ≥ 1) it returns a list of
the same length whose first element is the first price and whose element
`i+1` is `price[i+1]*k + ema[i]*(1-k)` with `k = 2/(period+1)`; and
concretely `EMA([10,20,30], 2) = [10, 50/3, 230/9]`. -/
theorem calculateEMA_spec (prices : List ℚ) (period : ℕ) (hp : 0 < period) :
    (prices.length < period → Bot.calculateEMA prices period = []) ∧
    (period ≤ prices.length →
      (Bot.calculateEMA prices period).length = prices.length ∧
      (Bot.calculateEMA prices period).head? = prices.head? ∧
      (∀ (i : ℕ) (h1 : i + 1 < (Bot.calculateEMA prices period).length)
        (h2 : i + 1 < prices.length),
        (Bot.calculateEMA prices period)[i + 1] =
          prices[i + 1] * (2 / ((period : ℚ) + 1)) +
            (Bot.calculateEMA prices period)[i] *
              (1 - 2 / ((period : ℚ) + 1)))) ∧
    Bot.calculateEMA [10, 20, 30] 2 = [10, 50/3, 230/9] := by
  refine ⟨?_, ?_, by norm_num [Bot.calculateEMA, Bot.emaAux]⟩
  · intro h
    simp [Bot.calculateEMA, h]
  · intro hle
    have hnlt : ¬ prices.length < period := not_lt.mpr hle
    obtain ⟨p, ps, rfl⟩ : ∃ p ps, prices = p :: ps := by
      cases prices with
      | nil => simp at hle; omega
      | cons p ps => exact ⟨p, ps, rfl⟩
    rw [calculateEMA_cons p ps period hnlt]
    set k : ℚ := 2 / ((period : ℚ) + 1) with hk
    refine ⟨by simp [emaAux_length], rfl, ?_⟩
    intro i h1 h2
    have hlen : (Bot.emaAux k p ps).length = ps.length := emaAux_length k ps p
    match i with
    | 0 =>
      have hps : 0 < ps.length := by simpa using h2
      have hps' : 0 < (Bot.emaAux k p ps).length := by rw [hlen]; exact hps
      simp only [List.getElem_cons_succ, List.getElem_cons_zero]
      exact emaAux_getElem_zero k p ps hps hps'
    | j + 1 =>
      have hj : j + 1 < ps.length := by simpa using h2
      have hj1 : j + 1 < (Bot.emaAux k p ps).length := by rw [hlen]; exact hj
      have hj2 : j < (Bot.emaAux k p ps).length := by rw [hlen]; omega
      simp only [List.getElem_cons_succ]
      exact emaAux_getElem_succ k ps p j hj hj1 hj2

/-- Concrete instantiation of the EMA specification at `[10,20,30]`,
period 2: full length, seeded head, and the claimed second value. -/
theorem calculateEMA_spec_witness :
    (Bot.calculateEMA [10, 20, 30] 2).length = 3 ∧
    Bot.calculateEMA [10, 20, 30] 2 = [10, 50/3, 230/9] :=
  ⟨by simpa using ((calculateEMA_spec [10, 20, 30] 2 (by decide)).2.1
      (by decide)).1,
    (calculateEMA_spec [10, 20, 30] 2 (by decide)).2.2⟩

/-! ## RSI lemmas -/

theorem deltas_cons_cons (p q : ℚ) (rest : List ℚ) :
    Bot.deltas (p :: q :: rest) = (q - p) :: Bot.deltas (q :: rest) := rfl

theorem deltas_length (ps : List ℚ) :
    (Bot.deltas ps).length = ps.length - 1 := by
  simp only [Bot.deltas, List.length_zipWith, List.length_tail]
  omega

theorem deltas_pos :
    ∀ (prices : List ℚ), List.Chain' (· < ·) prices →
      ∀ d ∈ Bot.deltas prices, 0 < d
  | [], _, d, hd => by simp [Bot.deltas] at hd
  | [_], _, d, hd => by simp [Bot.deltas] at hd
  | p :: q :: rest, h, d, hd => by
    rw [List.chain'_cons] at h
    rw [deltas_cons_cons] at hd
    rcases List.mem_cons.mp hd with h1 | h1
    · rw [h1]; linarith [h.1]
    · exact deltas_pos (q :: rest) h.2 d h1

theorem lossFold_zero :
    ∀ (ds : List ℚ) (a : ℚ), (∀ d ∈ ds, 0 < d) →
      ds.foldl (fun a d => if d > 0 then a else a - d) a = a
  | [], _, _ => rfl
  | d :: ds, a, h => by
    have hd : d > 0 := h d (by simp)
    simp only [List.foldl_cons, if_pos hd]
    exact lossFold_zero ds a (fun x hx => h x (by simp [hx]))

/-! ## C1 -/

/-- C1 (amended): on any strictly increasing 15-point series, period 14,
`calculateRSI` returns a one-element sequence — but its value is
`100 - 100/(1+100) = 10000/101 ≈ 99.0099`, because the source maps a zero
seed average loss to `rs = 100` instead of to `RSI = 100`. -/
theorem calculateRSI_increasing15 (prices : List ℚ)
    (hlen : prices.length = 15) (hmono : List.Chain' (· < ·) prices) :
    Bot.calculateRSI prices 14 = [10000 / 101] := by
  have hgt : ¬ prices.length ≤ 14 := by omega
  have hdl : (Bot.deltas prices).length = 14 := by
    rw [deltas_length, hlen]
  have htake : (Bot.deltas prices).take 14 = Bot.deltas prices := by
    rw [← hdl, List.take_length]
  have hdrop : (Bot.deltas prices).drop 14 = [] := by
    rw [← hdl, List.drop_length]
  have hloss :
      (Bot.deltas prices).foldl (fun a d => if d > 0 then a else a - d) 0 = 0 :=
    lossFold_zero _ 0 (deltas_pos prices hmono)
  unfold Bot.calculateRSI
  rw [if_neg hgt]
  dsimp only
  rw [htake, hdrop, hloss]
  norm_num [Bot.rsiRest]

/-- Concrete instantiation: prices 1..15 are strictly increasing and give
the single value `10000/101`. -/
theorem calculateRSI_increasing15_witness :
    Bot.calculateRSI [1, 2, 3, 4, 5, 6, 7, 8, 9, 10, 11, 12, 13, 14, 15] 14 =
      [10000 / 101] :=
  calculateRSI_increasing15 _ (by rfl)
    (by norm_num [List.chain'_cons, List.chain'_singleton])

/-- C1 counterexample: on the strictly increasing series 1..15 the RSI is
not the claimed `100`. -/
theorem calculateRSI_increasing15_not_100 :
    Bot.calculateRSI [1, 2, 3, 4, 5, 6, 7, 8, 9, 10, 11, 12, 13, 14, 15] 14 ≠
      [(100 : ℚ)] := by
  norm_num [Bot.calculateRSI, Bot.deltas, Bot.rsiRest]

/-! ## C3 -/

/-- C3 (amended): the array-returning ATR returns `[]` whenever fewer than
`period + 1` bars are available (guard `length ≤ period`), but the
scalar-returning ATR returns its `0` sentinel only when fewer than
`period` bars are available (guard `length < period`); with exactly
`period` bars it computes a partial value instead. -/
theorem calculateATR_insufficient_data (data : List CombinedStrategyBot.Bar)
    (ohlcData : List TrendPullbackBot.OhlcRow) (period : ℕ) :
    (data.length ≤ period →
      CombinedStrategyBot.calculateATR data period = []) ∧
    (ohlcData.length < period →
      TrendPullbackBot.calculateATR ohlcData period = 0) := by
  constructor
  · intro h; simp [CombinedStrategyBot.calculateATR, h]
  · intro h; simp [TrendPullbackBot.calculateATR, h]

/-- Concrete instantiation of both insufficient-data guards on empty
series with the default period 14. -/
theorem calculateATR_insufficient_data_witness :
    CombinedStrategyBot.calculateATR [] 14 = [] ∧
    TrendPullbackBot.calculateATR [] 14 = 0 :=
  ⟨(calculateATR_insufficient_data [] [] 14).1 (by decide),
    (calculateATR_insufficient_data [] [] 14).2 (by decide)⟩

/-- C3 counterexample: 14 bars is fewer than `period + 1 = 15`, yet the
scalar ATR computes the partial value `13/14` (mean of the 13 available
true ranges over a divisor of 14) instead of returning the `0` sentinel. -/
theorem calculateATR_scalar_partial_at_period :
    (List.replicate 14 (⟨2, 1, 1⟩ : TrendPullbackBot.OhlcRow)).length <
      14 + 1 ∧
    TrendPullbackBot.calculateATR
      (List.replicate 14 (⟨2, 1, 1⟩ : TrendPullbackBot.OhlcRow)) 14 =
        13 / 14 ∧
    (13 / 14 : ℚ) ≠ 0 := by
  refine ⟨by norm_num, ?_, by norm_num⟩
  have htr : TrendPullbackBot.trueRanges
      (List.replicate 14 (⟨2, 1, 1⟩ : TrendPullbackBot.OhlcRow)) =
      List.replicate 13 1 := by
    norm_num [TrendPullbackBot.trueRanges, List.replicate]
  unfold TrendPullbackBot.calculateATR
  rw [if_neg (by simp)]
  dsimp only
  rw [htr]
  norm_num [List.take_replicate, List.drop_replicate, List.replicate]

/-! ## C4 -/

/-- C4 counterexample: with 1 USDC of available capital the trade is not
skipped (capital is nonzero) and the floored position size `10` is
submitted, exceeding the available capital it was sized against. -/
theorem positionSize_exceeds_small_capital :
    Bot.executeTradeSizing (3 / 100) 1 = some 10 ∧ (1 : ℚ) < 10 := by
  constructor
  · unfold Bot.executeTradeSizing Bot.calculatePositionSize
    rw [if_neg (by norm_num : (1 : ℚ) ≠ 0)]
    norm_num
  · norm_num

/-- C4 (amended): the sizing guard skips an opportunity only when the
available capital is exactly `0`; otherwise it submits
`max 10 (capital * m * (1 - 0.5))`.  That size never exceeds the capital
once `capital ≥ 10` (for any `0 ≤ m ≤ 2`, covering the source values
0.03/0.05/0.12), but the floor of 10 makes it exceed any capital below
10. -/
theorem executeTradeSizing_spec (m cap : ℚ) (hcap : 10 ≤ cap)
    (_hm0 : 0 ≤ m) (hm2 : m ≤ 2) :
    Bot.executeTradeSizing m 0 = none ∧
    Bot.executeTradeSizing m cap =
      some (Bot.calculatePositionSize cap (1 / 2) m) ∧
    Bot.calculatePositionSize cap (1 / 2) m ≤ cap := by
  have hne : cap ≠ 0 := by intro h; rw [h] at hcap; norm_num at hcap
  refine ⟨by simp [Bot.executeTradeSizing], ?_, ?_⟩
  · simp [Bot.executeTradeSizing, hne]
  · have hprod : cap * m * (1 - 1 / 2) ≤ cap := by
      nlinarith [mul_nonneg (by linarith : (0 : ℚ) ≤ 2 - m)
        (by linarith : (0 : ℚ) ≤ cap)]
    simpa [Bot.calculatePositionSize] using max_le hcap hprod

/-! ## Parsing lemmas -/

theorem matchLit_sound :
    ∀ (lit s r : List Char),
      TrendPullbackBot.matchLit lit s = some r → s = lit ++ r
  | [], s, r, h => by
    simp [TrendPullbackBot.matchLit] at h
    simp [h]
  | _ :: _, [], r, h => by simp [TrendPullbackBot.matchLit] at h
  | c :: cs, d :: ds, r, h => by
    unfold TrendPullbackBot.matchLit at h
    by_cases hcd : c = d
    · rw [if_pos hcd] at h
      subst hcd
      simp [matchLit_sound cs ds r h]
    · rw [if_neg hcd] at h
      simp at h

theorem matchDelimHere_sound (opn cls s g rest : List Char)
    (h : TrendPullbackBot.matchDelimHere opn cls s = some (g, rest)) :
    g ≠ [] ∧ (∀ c ∈ g, TrendPullbackBot.isScoreChar c = true) ∧
      s = opn ++ g ++ cls ++ rest := by
  unfold TrendPullbackBot.matchDelimHere at h
  cases hl : TrendPullbackBot.matchLit opn s with
  | none => rw [hl] at h; simp at h
  | some t =>
    rw [hl] at h
    dsimp only at h
    by_cases hg : t.takeWhile TrendPullbackBot.isScoreChar = []
    · rw [if_pos hg] at h; simp at h
    · rw [if_neg hg] at h
      cases hc : TrendPullbackBot.matchLit cls
          (t.dropWhile TrendPullbackBot.isScoreChar) with
      | none => rw [hc] at h; simp at h
      | some rest2 =>
        rw [hc] at h
        simp only [Option.some.injEq, Prod.mk.injEq] at h
        obtain ⟨hg1, hr1⟩ := h
        subst hg1
        subst hr1
        refine ⟨hg, fun c hcg => List.mem_takeWhile_imp hcg, ?_⟩
        have hs := matchLit_sound opn s t hl
        have hr := matchLit_sound cls _ _ hc
        have ht : t = t.takeWhile TrendPullbackBot.isScoreChar ++
            (cls ++ rest2) := by
          conv_lhs => rw [← List.takeWhile_append_dropWhile
            (p := TrendPullbackBot.isScoreChar) (l := t)]
          rw [hr]
        rw [hs]
        conv_lhs => rw [ht]
        simp

theorem matchDelimSplit_sound (opn cls : List Char) :
    ∀ (s a g rest : List Char),
      TrendPullbackBot.matchDelimSplit opn cls s = some (a, g, rest) →
      g ≠ [] ∧ (∀ c ∈ g, TrendPullbackBot.isScoreChar c = true) ∧
        s = a ++ opn ++ g ++ cls ++ rest
  | [], a, g, rest, h => by simp [TrendPullbackBot.matchDelimSplit] at h
  | c :: cs, a, g, rest, h => by
    unfold TrendPullbackBot.matchDelimSplit at h
    cases hh : TrendPullbackBot.matchDelimHere opn cls (c :: cs) with
    | some p =>
      obtain ⟨g', r'⟩ := p
      rw [hh] at h
      simp only [Option.some.injEq, Prod.mk.injEq] at h
      obtain ⟨ha, hg2, hr2⟩ := h
      subst ha; subst hg2; subst hr2
      have := matchDelimHere_sound opn cls (c :: cs) g' r' hh
      simpa using this
    | none =>
      rw [hh] at h
      cases hs : TrendPullbackBot.matchDelimSplit opn cls cs with
      | none => rw [hs] at h; simp at h
      | some q =>
        obtain ⟨a', g', r'⟩ := q
        rw [hs] at h
        simp only [Option.some.injEq, Prod.mk.injEq] at h
        obtain ⟨ha, hg2, hr2⟩ := h
        subst ha; subst hg2; subst hr2
        obtain ⟨h1, h2, h3⟩ := matchDelimSplit_sound opn cls cs a' g' r' hs
        exact ⟨h1, h2, by simp [h3]⟩

/-! ## C7 -/

/-- C7: parsing the response `"<score>0.42</score> looks risky"` yields
confidence `0.42 = 21/50` with reason `"looks risky"` (tag stripped,
whitespace trimmed); and for any response containing neither a
`<score>X</score>` tag nor a `confidence score of **X.XX**` sentence the
extracted confidence is `0`. -/
theorem parseConfidence_spec :
    TrendPullbackBot.parseConfidence
        ("<score>0.42</score> looks risky".toList) =
      (21 / 50, ("looks risky".toList)) ∧
    ∀ s : List Char,
      ¬ TrendPullbackBot.ContainsDelim TrendPullbackBot.scoreOpen
          TrendPullbackBot.scoreClose s →
      ¬ TrendPullbackBot.ContainsDelim TrendPullbackBot.fbOpen
          TrendPullbackBot.fbClose s →
      (TrendPullbackBot.parseConfidence s).1 = 0 := by
  constructor
  · have hsplit : TrendPullbackBot.matchDelimSplit TrendPullbackBot.scoreOpen
        TrendPullbackBot.scoreClose
        ("<score>0.42</score> looks risky".toList) =
        some ([], ['0', '.', '4', '2'], (" looks risky".toList)) := rfl
    have hreason : TrendPullbackBot.trimChars (TrendPullbackBot.replaceFirstTag
        ("<score>0.42</score> looks risky".toList)) =
        ("looks risky".toList) := rfl
    have hpf : TrendPullbackBot.parseFloatQ ['0', '.', '4', '2'] = 21 / 50 := by
      have h0 : TrendPullbackBot.digitsToNat ['0'] = 0 := rfl
      have h42 : TrendPullbackBot.digitsToNat ['4', '2'] = 42 := rfl
      show (TrendPullbackBot.digitsToNat ['0'] : ℚ) +
          (TrendPullbackBot.digitsToNat ['4', '2'] : ℚ) /
            ((10 : ℚ) ^ (['4', '2'] : List Char).length) = 21 / 50
      rw [h0, h42]
      norm_num
    unfold TrendPullbackBot.parseConfidence
    rw [hsplit]
    dsimp only
    rw [hpf, hreason]
  · intro s h1 h2
    unfold TrendPullbackBot.parseConfidence
    cases hm : TrendPullbackBot.matchDelimSplit TrendPullbackBot.scoreOpen
        TrendPullbackBot.scoreClose s with
    | some p =>
      obtain ⟨a, g, r⟩ := p
      obtain ⟨hne, hcl, hseq⟩ := matchDelimSplit_sound _ _ s a g r hm
      exact absurd ⟨a, g, r, hne, hcl, hseq⟩ h1
    | none =>
      cases hf : TrendPullbackBot.matchDelimSplit TrendPullbackBot.fbOpen
          TrendPullbackBot.fbClose s with
      | some p =>
        obtain ⟨a, g, r⟩ := p
        obtain ⟨hne, hcl, hseq⟩ := matchDelimSplit_sound _ _ s a g r hf
        exact absurd ⟨a, g, r, hne, hcl, hseq⟩ h2
      | none => simp [hm, hf]

/-- Concrete instantiation: the response `"hi"` contains neither pattern
(by a length argument), so the parsed confidence is `0`. -/
theorem parseConfidence_spec_witness :
    (TrendPullbackBot.parseConfidence ['h', 'i']).1 = 0 := by
  refine parseConfidence_spec.2 ['h', 'i'] ?_ ?_ <;>
    rintro ⟨a, g, b, hne, -, hs⟩ <;>
  · have hg : 0 < g.length := List.length_pos.mpr hne
    have hlen := congrArg List.length hs
    simp [TrendPullbackBot.scoreOpen, TrendPullbackBot.scoreClose,
      TrendPullbackBot.fbOpen, TrendPullbackBot.fbClose] at hlen
    omega

/-- Concrete instantiation: capital 20, maxPositionSize 0.03 submits
`max 10 (20 * 0.03 * 0.5) = 10 ≤ 20`. -/
theorem executeTradeSizing_spec_witness :
    Bot.executeTradeSizing (3 / 100) 20 =
      some (Bot.calculatePositionSize 20 (1 / 2) (3 / 100)) ∧
    Bot.calculatePositionSize 20 (1 / 2) (3 / 100) ≤ 20 :=
  ⟨(executeTradeSizing_spec (3 / 100) 20 (by norm_num) (by norm_num)
      (by norm_num)).2.1,
    (executeTradeSizing_spec (3 / 100) 20 (by norm_num) (by norm_num)
      (by norm_num)).2.2⟩

/-! ## C8 -/

/-- C8 (code bug): the exit formula at the cited lines is exactly
`pnl = (current - entry)/entry` with inclusive thresholds — at entry 100,
takeProfit 0.15, a price of 115 triggers, and at stopLoss 0.05 a price of
94 triggers — but the monitor never reaches it: `token.token` is
undefined for every stored trade (the address is stored in `toToken`), so
the tradable-address guard skips every position and `monitorOpenPositions`
leaves any store unchanged.  In particular a stored AAVE position with
entry 100 and current price 115 stays in the store. -/
theorem monitorOpenPositions_never_closes :
    (∀ (sl tp entry cur : ℚ), Bot.exitTriggered sl tp entry cur = true ↔
      (Bot.pnl entry cur ≤ -sl ∨ tp ≤ Bot.pnl entry cur)) ∧
    Bot.exitTriggered (1 / 20) (3 / 20) 100 115 = true ∧
    Bot.exitTriggered (1 / 20) (3 / 20) 100 94 = true ∧
    (∀ (w : Bool) (sl tp : ℚ) (priceOf : OpenTrade → Option ℚ)
      (s : StoreState), Bot.monitorOpenPositions w sl tp priceOf s = s) ∧
    Bot.monitorOpenPositions true (1 / 20) (3 / 20) (fun _ => some 115)
        ⟨[{ sampleTrade with price := 100 }],
          [{ sampleTrade with price := 100 }]⟩ =
      ⟨[{ sampleTrade with price := 100 }],
        [{ sampleTrade with price := 100 }]⟩ := by
  have hstep : ∀ (w : Bool) (sl tp : ℚ) (priceOf : OpenTrade → Option ℚ)
      (s : StoreState) (t : OpenTrade),
      Bot.monitorStep w sl tp priceOf s t = s := by
    intro w sl tp priceOf s t
    simp [Bot.monitorStep, Bot.tokenField, Bot.hasTokenAddress]
  have hfold : ∀ (l : List OpenTrade) (w : Bool) (sl tp : ℚ)
      (priceOf : OpenTrade → Option ℚ) (s : StoreState),
      l.foldl (Bot.monitorStep w sl tp priceOf) s = s := by
    intro l
    induction l with
    | nil => intro w sl tp priceOf s; rfl
    | cons t ts ih =>
      intro w sl tp priceOf s
      rw [List.foldl_cons, hstep]
      exact ih w sl tp priceOf s
  refine ⟨?_, ?_, ?_, ?_, ?_⟩
  · intro sl tp entry cur
    simp [Bot.exitTriggered]
  · simp only [Bot.exitTriggered, Bot.pnl, Bool.or_eq_true, decide_eq_true_eq]
    right
    norm_num
  · simp only [Bot.exitTriggered, Bot.pnl, Bool.or_eq_true, decide_eq_true_eq]
    left
    norm_num
  · intro w sl tp priceOf s
    exact hfold _ w sl tp priceOf s
  · exact hfold _ true _ _ _ _

/-! ## High-water-mark lemmas -/

theorem monitorHwmPass_some (e h p : ℚ) :
    MemecoinBot.monitorHwmPass e (some h) (some p) = some (max h p) := by
  unfold MemecoinBot.monitorHwmPass
  dsimp only
  rcases le_or_lt p h with hle | hlt
  · rw [if_neg (not_lt.mpr hle), max_eq_left hle]
  · rw [if_pos hlt, max_eq_right hlt.le]

theorem monitorHwmPass_default (e : ℚ) (price : Option ℚ) :
    MemecoinBot.monitorHwmPass e none price =
      MemecoinBot.monitorHwmPass e (some e) price := rfl

theorem monitorHwmRuns_some (e : ℚ) :
    ∀ (ps : List (Option ℚ)) (h : ℚ),
      MemecoinBot.monitorHwmRuns e (some h) ps =
        some (MemecoinBot.hwmValue h (ps.filterMap id))
  | [], h => rfl
  | none :: ps, h => by
    have := monitorHwmRuns_some e ps h
    simpa [MemecoinBot.monitorHwmRuns, MemecoinBot.monitorHwmPass,
      List.filterMap_cons] using this
  | some p :: ps, h => by
    have := monitorHwmRuns_some e ps (max h p)
    calc MemecoinBot.monitorHwmRuns e (some h) (some p :: ps)
        = MemecoinBot.monitorHwmRuns e
            (MemecoinBot.monitorHwmPass e (some h) (some p)) ps := rfl
      _ = MemecoinBot.monitorHwmRuns e (some (max h p)) ps := by
          rw [monitorHwmPass_some]
      _ = some (MemecoinBot.hwmValue (max h p) (ps.filterMap id)) := this
      _ = some (MemecoinBot.hwmValue h ((some p :: ps).filterMap id)) := by
          simp [MemecoinBot.hwmValue, List.filterMap_cons]

theorem le_hwmValue : ∀ (obs : List ℚ) (e : ℚ),
    e ≤ MemecoinBot.hwmValue e obs
  | [], _ => le_refl _
  | p :: obs, e =>
    le_trans (le_max_left e p) (le_hwmValue obs (max e p))

theorem mem_le_hwmValue : ∀ (obs : List ℚ) (e x : ℚ), x ∈ obs →
    x ≤ MemecoinBot.hwmValue e obs
  | p :: obs, e, x, hx => by
    rcases List.mem_cons.mp hx with h1 | h1
    · subst h1
      exact le_trans (le_max_right e x) (le_hwmValue obs (max e x))
    · exact mem_le_hwmValue obs (max e p) x h1

theorem hwmValue_eq_or_mem : ∀ (obs : List ℚ) (e : ℚ),
    MemecoinBot.hwmValue e obs = e ∨ MemecoinBot.hwmValue e obs ∈ obs
  | [], _ => Or.inl rfl
  | p :: obs, e => by
    have hstep : MemecoinBot.hwmValue e (p :: obs) =
        MemecoinBot.hwmValue (max e p) obs := rfl
    rcases hwmValue_eq_or_mem obs (max e p) with h1 | h1
    · rcases max_choice e p with hm | hm
      · exact Or.inl (by rw [hstep, h1, hm])
      · exact Or.inr (by rw [hstep, h1, hm]; exact List.mem_cons_self p obs)
    · exact Or.inr (by rw [hstep]; exact List.mem_cons_of_mem p h1)

/-! ## C9 -/

/-- C9: the high-water mark defaults to the entry price on first
observation (also when the price fetch fails); on every later observation
it becomes the maximum of the old mark and the current price — so it is
raised exactly when the current price exceeds it and never decreases —
and after any nonempty sequence of passes it equals the maximum of the
entry price and all successfully observed prices (an upper bound attained
at the entry price or one of the observations). -/
theorem highWaterMark_spec (entry : ℚ) :
    MemecoinBot.monitorHwmPass entry none none = some entry ∧
    (∀ p : ℚ, MemecoinBot.monitorHwmPass entry none (some p) =
      some (max entry p)) ∧
    (∀ h p : ℚ, MemecoinBot.monitorHwmPass entry (some h) (some p) =
      some (max h p)) ∧
    (∀ h p : ℚ, p ≤ h →
      MemecoinBot.monitorHwmPass entry (some h) (some p) = some h) ∧
    (∀ (h : ℚ) (price : Option ℚ), ∃ h2,
      MemecoinBot.monitorHwmPass entry (some h) price = some h2 ∧ h ≤ h2) ∧
    (∀ ps : List (Option ℚ), ps ≠ [] →
      MemecoinBot.monitorHwmRuns entry none ps =
        some (MemecoinBot.hwmValue entry (ps.filterMap id))) ∧
    (∀ obs : List ℚ, entry ≤ MemecoinBot.hwmValue entry obs ∧
      (∀ x ∈ obs, x ≤ MemecoinBot.hwmValue entry obs) ∧
      (MemecoinBot.hwmValue entry obs = entry ∨
        MemecoinBot.hwmValue entry obs ∈ obs)) := by
  refine ⟨rfl, ?_, monitorHwmPass_some entry, ?_, ?_, ?_, ?_⟩
  · intro p
    rw [monitorHwmPass_default, monitorHwmPass_some]
  · intro h p hle
    rw [monitorHwmPass_some, max_eq_left hle]
  · intro h price
    cases price with
    | none => exact ⟨h, rfl, le_refl h⟩
    | some p => exact ⟨max h p, monitorHwmPass_some entry h p, le_max_left h p⟩
  · intro ps hps
    cases ps with
    | nil => exact absurd rfl hps
    | cons po ps =>
      cases po with
      | none =>
        calc MemecoinBot.monitorHwmRuns entry none (none :: ps)
            = MemecoinBot.monitorHwmRuns entry (some entry) ps := rfl
          _ = some (MemecoinBot.hwmValue entry (ps.filterMap id)) :=
              monitorHwmRuns_some entry ps entry
          _ = some (MemecoinBot.hwmValue entry
              ((none :: ps).filterMap id)) := by simp [List.filterMap_cons]
      | some p =>
        calc MemecoinBot.monitorHwmRuns entry none (some p :: ps)
            = MemecoinBot.monitorHwmRuns entry
                (MemecoinBot.monitorHwmPass entry none (some p)) ps := rfl
          _ = MemecoinBot.monitorHwmRuns entry (some (max entry p)) ps := by
              rw [monitorHwmPass_default, monitorHwmPass_some]
          _ = some (MemecoinBot.hwmValue (max entry p) (ps.filterMap id)) :=
              monitorHwmRuns_some entry ps (max entry p)
          _ = some (MemecoinBot.hwmValue entry
              ((some p :: ps).filterMap id)) := by
              simp [MemecoinBot.hwmValue, List.filterMap_cons]
  · intro obs
    exact ⟨le_hwmValue obs entry, fun x hx => mem_le_hwmValue obs entry x hx,
      hwmValue_eq_or_mem obs entry⟩

/-- Concrete instantiation: entry 100, observations 105, a failed fetch,
then 95 — the mark ends at `max`-fold value of the observed prices. -/
theorem highWaterMark_spec_witness :
    MemecoinBot.monitorHwmRuns 100 none [some 105, none, some 95] =
      some (MemecoinBot.hwmValue 100 [105, 95]) :=
  (highWaterMark_spec 100).2.2.2.2.2.1 [some 105, none, some 95] (by simp)

end EightBall
